import Mathlib

/-!
Verification of the fork-off-substrate genesis forking script (src/index.js).

The development shallowly embeds the two algorithmic parts of the script:

* the chunked state fetcher (`fetchChunks`, lines 160-183, together with the
  top-level wrapper in `main`, lines 82-88) that walks the hex keyspace tree
  and streams key-value pairs into one JSON array file, and
* the spec splicer (`main`, lines 110-139) that transplants the snapshot into
  the template genesis document, applies the hard-coded overrides, and injects
  the runtime code,

plus the prefix registry (`main`, lines 93-100) with a faithful executable
model of the external 128-bit xxhash used for module storage prefixes.

Strings are modelled by Lean `String`; a JavaScript object such as
`forkedSpec.genesis.raw.top` is modelled extensionally as a partial map
`String → Option String`; the append-only output stream is modelled as the
string written so far.
-/

namespace ForkOff

/-! ## String helpers -/

/-- Extensionality for `String` via its underlying character list. -/
theorem str_ext {a b : String} (h : a.data = b.data) : a = b := by
  cases a; cases b; exact congrArg String.mk h

/-- Embedding of JavaScript `s.startsWith(pre)`: character-wise prefix test
(for the ASCII hex strings handled by the script this agrees with the UTF-16
code-unit semantics of JavaScript). -/
def startsWith (s pre : String) : Bool := pre.data.isPrefixOf s.data

theorem startsWith_iff {s pre : String} :
    startsWith s pre = true ↔ pre.data <+: s.data := by
  simp [startsWith]

/-! ## Hex rendering of bytes

`fetchChunks` builds child chunk addresses with
`prefix + i.toString(16).padStart(2, "0")` (line 175/180 of src/index.js).
`Nat.toDigits 16` produces exactly the lowercase hex digits of
`Number.prototype.toString(16)` for natural numbers. -/

/-- JavaScript `i.toString(16)` for a natural number `i`. -/
def natToHex (i : Nat) : String := ⟨Nat.toDigits 16 i⟩

/-- JavaScript `i.toString(16).padStart(2, "0")`. -/
def byteToHex (i : Nat) : String :=
  let s := natToHex i
  if s.length < 2 then "0" ++ s else s

/-- Decoder used to establish injectivity of `byteToHex`. -/
def hexVal (c : Char) : Nat := if c.toNat ≤ 57 then c.toNat - 48 else c.toNat - 87

/-- Decoder for a one- or two-digit hex string. -/
def unHex2 (s : String) : Nat :=
  match s.data with
  | [a, b] => 16 * hexVal a + hexVal b
  | [a] => hexVal a
  | _ => 0

set_option maxHeartbeats 1000000 in
set_option maxRecDepth 4096 in
theorem unHex2_byteToHex : ∀ i : Nat, i < 256 → unHex2 (byteToHex i) = i := by decide

set_option maxHeartbeats 1000000 in
set_option maxRecDepth 4096 in
theorem byteToHex_len : ∀ i : Nat, i < 256 → (byteToHex i).data.length = 2 := by decide

theorem byteToHex_inj {i j : Nat} (hi : i < 256) (hj : j < 256)
    (h : byteToHex i = byteToHex j) : i = j := by
  have := congrArg unHex2 h
  rwa [unHex2_byteToHex i hi, unHex2_byteToHex j hj] at this

/-! ## Chunk addresses

The recursive walk of `fetchChunks` visits, below a root `pre` with `l`
levels remaining, exactly the chunk addresses listed by `childPrefixes pre l`
(sequential mode lists them in this order; quick mode permutes siblings at
the last level). -/

/-- Leaf chunk addresses visited below `pre` with `l` levels remaining:
each level appends one two-hex-digit byte `00`..`ff` (lines 172-182). -/
def childPrefixes (pre : String) : Nat → List String
  | 0 => [pre]
  | l + 1 => (List.range 256).flatMap (fun i => childPrefixes (pre ++ byteToHex i) l)

/-- Total number of leaf chunks, `Math.pow(256, chunksLevel)` (line 25). -/
def totalChunks (levels : Nat) : Nat := 256 ^ levels

/-! ## JSON serialization of the snapshot

The leaf fetch writes `JSON.stringify(pairs).slice(1, -1)` (line 165): the
JSON array text of the batch without its outer brackets, i.e. the comma-join
of the serialized pairs. -/

/-- JSON escaping of one character, as performed by `JSON.stringify` on
string values (quote, backslash, named control escapes, `\u00xx` for the
remaining control characters). -/
def escChar (c : Char) : String :=
  if c = '"' then "\\\""
  else if c = '\\' then "\\\\"
  else if c = '\x08' then "\\b"
  else if c = '\x09' then "\\t"
  else if c = '\x0a' then "\\n"
  else if c = '\x0c' then "\\f"
  else if c = '\x0d' then "\\r"
  else if c.toNat < 32 then "\\u00" ++ byteToHex c.toNat
  else String.singleton c

/-- JSON string-body escaping of `JSON.stringify`. -/
def jsonEscape (s : String) : String :=
  s.data.foldr (fun c acc => escChar c ++ acc) ""

/-- JSON text of one `[key, value]` pair as produced by `JSON.stringify`. -/
def pairJson (kv : String × String) : String :=
  "[\"" ++ jsonEscape kv.1 ++ "\",\"" ++ jsonEscape kv.2 ++ "\"]"

/-- Comma-join of a list of fragments (the `,`-separated body of a JSON
array). -/
def joinComma : List String → String
  | [] => ""
  | [x] => x
  | x :: y :: t => x ++ "," ++ joinComma (y :: t)

/-- JSON text of a whole snapshot: the `JSON.stringify` serialization of the
array of `[key, value]` pairs. -/
def snapshotJson (ps : List (String × String)) : String :=
  "[" ++ joinComma (ps.map pairJson) ++ "]"

/-! ## The chunked state fetcher -/

/-- State threaded through the walk: the global `separator` flag (line 28),
the text written to the output stream so far, and the `chunksFetched`
progress counter (line 27). -/
structure FetchState where
  separator : Bool
  out : String
  chunksFetched : Nat
  deriving Repr, DecidableEq

/-- Base case of `fetchChunks` (lines 161-168): one range query for `pre`;
a non-empty batch writes a separating comma (if anything was written before)
followed by the bracket-stripped JSON of the batch; the progress counter
advances either way. The RPC source is modelled as a pure function from a
chunk address to its list of key-value pairs. -/
def fetchLeaf (src : String → List (String × String)) (st : FetchState)
    (pre : String) : FetchState :=
  let pairs := src pre
  if pairs.length > 0 then
    { separator := true,
      out := st.out ++ (if st.separator then "," else "") ++ joinComma (pairs.map pairJson),
      chunksFetched := st.chunksFetched + 1 }
  else
    { st with chunksFetched := st.chunksFetched + 1 }

/-- Recursive chunk walk (lines 160-183) in sequential order: with levels
remaining, expand into the 256 children obtained by appending one two-digit
hex byte and recurse on each in order. (Quick mode launches the 256 children
of a last-level node concurrently; since each leaf writes its fragment
atomically between awaits, its effect is captured by running `fetchLeaf`
over a permutation of the leaf order, see `runLeaves`.) -/
def fetchChunks (src : String → List (String × String)) (pre : String) :
    Nat → FetchState → FetchState
  | 0, st => fetchLeaf src st pre
  | l + 1, st =>
    (List.range 256).foldl (fun s i => fetchChunks src (pre ++ byteToHex i) l s) st

/-- Processing of an explicit list of leaf chunk addresses in the given
order. Sequential mode processes `childPrefixes pre l` in order; quick mode
processes some permutation of it. -/
def runLeaves (src : String → List (String × String)) (leaves : List String)
    (st : FetchState) : FetchState :=
  leaves.foldl (fetchLeaf src) st

/-- Initial fetch state: separator unset, nothing written, zero chunks. -/
def initState : FetchState := ⟨false, "", 0⟩

/-- The complete snapshot file for a given leaf order: the top-level caller
writes `[`, runs the walk, then writes `]` (lines 84-86). -/
def storageFile (src : String → List (String × String)) (leaves : List String) :
    String :=
  "[" ++ (runLeaves src leaves initState).out ++ "]"

/-! ## String append algebra -/

theorem str_append_empty (a : String) : a ++ "" = a :=
  str_ext (by simp)

theorem str_empty_append (a : String) : "" ++ a = a :=
  str_ext (by simp)

theorem str_append_assoc (a b c : String) : a ++ b ++ c = a ++ (b ++ c) :=
  str_ext (by simp)

/-! ## Output characterization of the walk -/

/-- Text appended to the stream by processing the given batches in order,
starting from separator flag `sep`: empty batches write nothing, the first
non-empty batch after the flag is set is preceded by a comma. -/
def tailJoin (sep : Bool) : List (List (String × String)) → String
  | [] => ""
  | g :: gs =>
    if g.length > 0 then
      (if sep then "," else "") ++ joinComma (g.map pairJson) ++ tailJoin true gs
    else tailJoin sep gs

theorem joinComma_append : ∀ (xs ys : List String), xs ≠ [] →
    joinComma (xs ++ ys) = joinComma xs ++ (if ys = [] then "" else ",") ++ joinComma ys
  | [], _, h => absurd rfl h
  | [x], ys, _ => by
    cases ys <;> simp [joinComma, str_append_empty, str_append_assoc]
  | x1 :: x2 :: xs, ys, _ => by
    have ih := joinComma_append (x2 :: xs) ys (by simp)
    simp only [List.cons_append] at ih
    have h1 : joinComma ((x1 :: x2 :: xs) ++ ys)
        = x1 ++ "," ++ joinComma ((x2 :: xs) ++ ys) := rfl
    have h2 : joinComma (x1 :: x2 :: xs) = x1 ++ "," ++ joinComma (x2 :: xs) := rfl
    rw [h1, List.cons_append, ih, h2]
    simp [str_append_assoc]

theorem tailJoin_eq : ∀ (gs : List (List (String × String))) (sep : Bool),
    tailJoin sep gs =
      (if sep = true ∧ gs.flatten ≠ [] then "," else "")
        ++ joinComma (gs.flatten.map pairJson)
  | [], sep => by simp [tailJoin, joinComma, str_append_empty]
  | [] :: gs, sep => by
    have h : tailJoin sep ([] :: gs) = tailJoin sep gs := by
      rw [tailJoin]; simp
    rw [h, tailJoin_eq gs sep, List.flatten_cons, List.nil_append]
  | (p :: ps) :: gs, sep => by
    have h : tailJoin sep ((p :: ps) :: gs)
        = (if sep then "," else "") ++ joinComma ((p :: ps).map pairJson)
            ++ tailJoin true gs := by
      rw [tailJoin]; simp
    rw [h, tailJoin_eq gs true, List.flatten_cons, List.map_append,
      joinComma_append _ _ (by simp)]
    have hcond : (if sep = true ∧ (p :: ps) ++ gs.flatten ≠ [] then "," else "")
        = (if sep then "," else "") := by
      by_cases hs : sep = true <;> simp [hs]
    rw [hcond]
    cases hfl : gs.flatten with
    | nil => simp [joinComma, str_append_empty, str_append_assoc]
    | cons q qs => simp [str_append_assoc]

theorem runLeaves_nil (src : String → List (String × String)) (st : FetchState) :
    runLeaves src [] st = st := rfl

theorem runLeaves_cons (src : String → List (String × String)) (x : String)
    (xs : List String) (st : FetchState) :
    runLeaves src (x :: xs) st = runLeaves src xs (fetchLeaf src st x) := rfl

/-- Complete characterization of a walk over an explicit leaf list: the final
separator flag, the appended text, and the progress count. -/
theorem runLeaves_spec (src : String → List (String × String)) :
    ∀ (leaves : List String) (st : FetchState),
    runLeaves src leaves st =
      ⟨st.separator || (leaves.map src).any (fun g => decide (0 < g.length)),
       st.out ++ tailJoin st.separator (leaves.map src),
       st.chunksFetched + leaves.length⟩
  | [], st => by
    cases st
    simp [runLeaves_nil, tailJoin, str_append_empty]
  | leaf :: leaves, st => by
    rw [runLeaves_cons, runLeaves_spec src leaves]
    cases hg : src leaf with
    | nil =>
      simp [fetchLeaf, hg, tailJoin, Nat.add_comm, Nat.add_left_comm, Nat.add_assoc]
    | cons p ps =>
      simp [fetchLeaf, hg, tailJoin, str_append_assoc, Nat.add_comm, Nat.add_left_comm,
        Nat.add_assoc]

theorem runLeaves_append (src : String → List (String × String))
    (l1 l2 : List String) (st : FetchState) :
    runLeaves src (l1 ++ l2) st = runLeaves src l2 (runLeaves src l1 st) :=
  List.foldl_append _ _ _ _

theorem runLeaves_flatMap (src : String → List (String × String))
    (g : Nat → List String) :
    ∀ (l : List Nat) (st : FetchState),
    runLeaves src (l.flatMap g) st = l.foldl (fun s i => runLeaves src (g i) s) st
  | [], _ => rfl
  | i :: l, st => by
    rw [List.flatMap_cons, runLeaves_append, runLeaves_flatMap src g l, List.foldl_cons]

/-- The recursive walk of `fetchChunks` is the in-order traversal of the leaf
chunk addresses. -/
theorem fetchChunks_eq_runLeaves (src : String → List (String × String)) :
    ∀ (l : Nat) (pre : String) (st : FetchState),
    fetchChunks src pre l st = runLeaves src (childPrefixes pre l) st
  | 0, pre, st => rfl
  | l + 1, pre, st => by
    rw [fetchChunks, childPrefixes, runLeaves_flatMap]
    have : (fun (s : FetchState) (i : Nat) => fetchChunks src (pre ++ byteToHex i) l s)
        = fun s i => runLeaves src (childPrefixes (pre ++ byteToHex i) l) s := by
      funext s i
      exact fetchChunks_eq_runLeaves src l (pre ++ byteToHex i) s
    rw [this]

/-! ## Claim C1 -/

/-- C1. For every chunk depth `levels ≥ 0` and every RPC source assigning a
finite list of key-value pairs to each leaf chunk address, the file produced
by the top-level fetch (write `[`, run the recursive chunk walk, write `]`)
is exactly the JSON serialization of the array of all pairs returned by the
leaf range queries, so it parses as a valid JSON array whose flattened pair
count equals the total number of pairs returned across all leaf queries.
The leaf processing order is an arbitrary permutation `leaves` of the
sequential order `childPrefixes "0x" levels`: sequential mode is the
identity permutation (third conjunct, stated directly on `fetchChunks`),
and quick mode, which fans out the 256 children of a last-level node
concurrently while each leaf still appends its fragment atomically, realizes
some such permutation, so the result holds whether quick mode is enabled or
not. -/
theorem c1_fetch_file_complete (levels : Nat) (src : String → List (String × String))
    (leaves : List String) (hperm : leaves.Perm (childPrefixes "0x" levels)) :
    storageFile src leaves = snapshotJson ((leaves.map src).flatten)
    ∧ ((leaves.map src).flatten).length
        = ((childPrefixes "0x" levels).map (fun q => (src q).length)).sum
    ∧ "[" ++ (fetchChunks src "0x" levels initState).out ++ "]"
        = snapshotJson (((childPrefixes "0x" levels).map src).flatten) := by
  have hfile : ∀ lv : List String,
      storageFile src lv = snapshotJson ((lv.map src).flatten) := by
    intro lv
    simp only [storageFile]
    rw [runLeaves_spec src lv initState]
    simp only [initState]
    rw [tailJoin_eq]
    simp [snapshotJson, str_empty_append]
  refine ⟨hfile leaves, ?_, ?_⟩
  · rw [List.length_flatten]
    have h1 : ((leaves.map src).map List.length).Perm
        (((childPrefixes "0x" levels).map src).map List.length) :=
      (hperm.map src).map List.length
    rw [h1.sum_eq]
    simp only [List.map_map]
    rfl
  · rw [fetchChunks_eq_runLeaves]
    exact hfile (childPrefixes "0x" levels)

/-- Concrete single-chunk RPC source used to witness `c1_fetch_file_complete`. -/
def srcW : String → List (String × String) :=
  fun p => if p = "0x" then [("0xaa11", "0x01"), ("0xbb22", "0x02")] else []

/-- Witness for C1 at depth 0 with a two-pair source. -/
theorem c1_fetch_file_complete_witness :
    (["0x"].Perm (childPrefixes "0x" 0))
    ∧ (storageFile srcW ["0x"] = snapshotJson ((["0x"].map srcW).flatten)
       ∧ ((["0x"].map srcW).flatten).length
           = ((childPrefixes "0x" 0).map (fun q => (srcW q).length)).sum
       ∧ "[" ++ (fetchChunks srcW "0x" 0 initState).out ++ "]"
           = snapshotJson (((childPrefixes "0x" 0).map srcW).flatten)) :=
  ⟨by decide, c1_fetch_file_complete 0 srcW ["0x"] (by decide)⟩

/-! ## xxHash64 and `xxhashAsHex`

Modelled from the spec: the 128-bit keyed hash of a module's storage prefix
is computed by the external crypto collaborator (`xxhashAsHex(name, 128)`
from `@polkadot/util-crypto`, not part of this repository). It is the
standard xxHash64 algorithm run with seeds 0 and 1, each 64-bit result
serialized little-endian and concatenated. The implementation below is
executable on `Nat` with explicit reduction modulo `2 ^ 64` and reproduces
the well-known Substrate module-prefix constants (see
`xxhash_system_constant` below), including the hard-coded keys appearing in
src/index.js lines 44 and 127. -/

def M64 : Nat := 2 ^ 64

def xxP1 : Nat := 11400714785074694791
def xxP2 : Nat := 14029467366897019727
def xxP3 : Nat := 1609587929392839161
def xxP4 : Nat := 9650029242287828579
def xxP5 : Nat := 2870177450012600261

def add64 (a b : Nat) : Nat := (a + b) % M64
def mul64 (a b : Nat) : Nat := (a * b) % M64
def sub64 (a b : Nat) : Nat := (a + (M64 - b % M64)) % M64
def rotl64 (x r : Nat) : Nat := (((x <<< r) % M64) ||| (x >>> (64 - r)))

/-- Little-endian value of a byte list (first byte least significant). -/
def leNat (bs : List Nat) : Nat := bs.foldr (fun b acc => acc * 256 + b % 256) 0

def xxRound (acc lane : Nat) : Nat := mul64 (rotl64 (add64 acc (mul64 lane xxP2)) 31) xxP1

def xxMergeRound (h acc : Nat) : Nat := add64 (mul64 (h ^^^ xxRound 0 acc) xxP1) xxP4

def xxAvalanche (h0 : Nat) : Nat :=
  let h1 := h0 ^^^ (h0 >>> 33)
  let h2 := mul64 h1 xxP2
  let h3 := h2 ^^^ (h2 >>> 29)
  let h4 := mul64 h3 xxP3
  h4 ^^^ (h4 >>> 32)

/-- Main 32-byte stripe loop of xxHash64. -/
def xxStripes : List Nat → Nat × Nat × Nat × Nat → (Nat × Nat × Nat × Nat) × List Nat
  | b0 :: b1 :: b2 :: b3 :: b4 :: b5 :: b6 :: b7 ::
    c0 :: c1 :: c2 :: c3 :: c4 :: c5 :: c6 :: c7 ::
    d0 :: d1 :: d2 :: d3 :: d4 :: d5 :: d6 :: d7 ::
    e0 :: e1 :: e2 :: e3 :: e4 :: e5 :: e6 :: e7 :: rest, (v1, v2, v3, v4) =>
    xxStripes rest
      (xxRound v1 (leNat [b0, b1, b2, b3, b4, b5, b6, b7]),
       xxRound v2 (leNat [c0, c1, c2, c3, c4, c5, c6, c7]),
       xxRound v3 (leNat [d0, d1, d2, d3, d4, d5, d6, d7]),
       xxRound v4 (leNat [e0, e1, e2, e3, e4, e5, e6, e7]))
  | bs, accs => (accs, bs)

/-- Remaining 8-byte words in the finalization phase. -/
def xxTail8 : Nat → List Nat → Nat × List Nat
  | h, b0 :: b1 :: b2 :: b3 :: b4 :: b5 :: b6 :: b7 :: rest =>
    xxTail8 (add64 (mul64 (rotl64 (h ^^^ xxRound 0 (leNat [b0, b1, b2, b3, b4, b5, b6, b7])) 27) xxP1) xxP4) rest
  | h, bs => (h, bs)

/-- Optional 4-byte word in the finalization phase. -/
def xxTail4 (h : Nat) : List Nat → Nat × List Nat
  | b0 :: b1 :: b2 :: b3 :: rest =>
    (add64 (mul64 (rotl64 (h ^^^ mul64 (leNat [b0, b1, b2, b3]) xxP1) 23) xxP2) xxP3, rest)
  | bs => (h, bs)

/-- Trailing single bytes in the finalization phase. -/
def xxTail1 : Nat → List Nat → Nat
  | h, [] => h
  | h, b :: rest => xxTail1 (mul64 (rotl64 (h ^^^ mul64 (b % 256) xxP5) 11) xxP1) rest

/-- xxHash64 of a byte list with the given seed. -/
def xxh64 (seed : Nat) (input : List Nat) : Nat :=
  let len := input.length
  let hrem : Nat × List Nat :=
    if 32 ≤ len then
      let sr := xxStripes input
        (add64 (add64 seed xxP1) xxP2, add64 seed xxP2, seed % M64, sub64 seed xxP1)
      let v1 := sr.1.1
      let v2 := sr.1.2.1
      let v3 := sr.1.2.2.1
      let v4 := sr.1.2.2.2
      let h0 := add64 (add64 (rotl64 v1 1) (rotl64 v2 7)) (add64 (rotl64 v3 12) (rotl64 v4 18))
      (xxMergeRound (xxMergeRound (xxMergeRound (xxMergeRound h0 v1) v2) v3) v4, sr.2)
    else (add64 seed xxP5, input)
  let h1 := add64 hrem.1 len
  let t8 := xxTail8 h1 hrem.2
  let t4 := xxTail4 t8.1 t8.2
  xxAvalanche (xxTail1 t4.1 t4.2)

/-- ASCII bytes of a module name (module names are plain ASCII, on which the
UTF-8 encoding used by the collaborator agrees with the code points). -/
def strBytes (s : String) : List Nat := s.data.map Char.toNat

/-- Little-endian 16-hex-digit rendering of a 64-bit value. -/
def u64ToLEHex (h : Nat) : String :=
  byteToHex (h % 256) ++ byteToHex ((h >>> 8) % 256) ++ byteToHex ((h >>> 16) % 256)
    ++ byteToHex ((h >>> 24) % 256) ++ byteToHex ((h >>> 32) % 256)
    ++ byteToHex ((h >>> 40) % 256) ++ byteToHex ((h >>> 48) % 256)
    ++ byteToHex ((h >>> 56) % 256)

/-- The collaborator call `xxhashAsHex(name, 128)`: xxHash64 with seeds 0 and
1, each serialized little-endian, concatenated, `0x`-prefixed. -/
def xxhashAsHex (s : String) : String :=
  "0x" ++ u64ToLEHex (xxh64 0 (strBytes s)) ++ u64ToLEHex (xxh64 1 (strBytes s))

/-! ## The prefix registry (src/index.js lines 44-45 and 93-100) -/

/-- The one hard-coded pinned prefix, the full `System.Account` map key
(line 44). -/
def pinnedSystemAccountKey : String :=
  "0x26aa394eea5630e07c48ae0c9558cef7b99d880ec681799c0cf30e8886371da9"

/-- The fixed module skip list (line 45). -/
def skippedModulesPrefix : List String :=
  ["System", "Session", "Babe", "Grandpa", "GrandpaFinality", "FinalityTracker", "Authorship"]

/-- Storage section descriptor of a module in the chain metadata; the field
models `module.storage.prefix`. -/
structure StorageMeta where
  storagePrefix : String
  deriving Repr, DecidableEq

/-- A module entry of the chain metadata: a human-readable module name and an
optional storage section (spec section 6: modules, "each with a name and, if
it has storage, a storage section descriptor"). The script reads only
`module.storage` and `module.storage.prefix`. -/
structure ModuleMeta where
  name : String
  storage : Option StorageMeta
  deriving Repr, DecidableEq

/-- Population of the `prefixes` array (lines 93-100): starting from the
pinned `System.Account` key, for each metadata module that declares storage,
push `xxhashAsHex(module.storage.prefix, 128)` unless the storage prefix is
listed in `skippedModulesPrefix`. -/
def buildPrefixes (modules : List ModuleMeta) : List String :=
  modules.foldl
    (fun acc m =>
      match m.storage with
      | none => acc
      | some st =>
        if st.storagePrefix ∈ skippedModulesPrefix then acc
        else acc ++ [xxhashAsHex st.storagePrefix])
    [pinnedSystemAccountKey]

/-- The hash pushed for one metadata module, if any. -/
def hashedIfKept (m : ModuleMeta) : Option String :=
  match m.storage with
  | none => none
  | some st =>
    if st.storagePrefix ∈ skippedModulesPrefix then none
    else some (xxhashAsHex st.storagePrefix)

theorem buildPrefixes_go (modules : List ModuleMeta) : ∀ acc : List String,
    modules.foldl
      (fun acc m =>
        match m.storage with
        | none => acc
        | some st =>
          if st.storagePrefix ∈ skippedModulesPrefix then acc
          else acc ++ [xxhashAsHex st.storagePrefix])
      acc
    = acc ++ modules.filterMap hashedIfKept := by
  induction modules with
  | nil => simp
  | cons m ms ih =>
    intro acc
    cases hm : m.storage with
    | none => simp [List.foldl_cons, hm, ih, List.filterMap_cons, hashedIfKept]
    | some st =>
      by_cases hskip : st.storagePrefix ∈ skippedModulesPrefix
      · simp [List.foldl_cons, hm, hskip, ih, List.filterMap_cons, hashedIfKept]
      · simp [List.foldl_cons, hm, hskip, ih, List.filterMap_cons, hashedIfKept]

/-- The prefix set is the pinned key followed by the hashes of the kept
storage prefixes, in metadata order. -/
theorem buildPrefixes_eq (modules : List ModuleMeta) :
    buildPrefixes modules = pinnedSystemAccountKey :: modules.filterMap hashedIfKept := by
  rw [buildPrefixes, buildPrefixes_go]
  rfl

/-! ## The spec splicer (src/index.js lines 106-139) -/

/-- A genesis spec document: the three identity fields, the raw storage map
`genesis.raw.top` (modelled extensionally), and an abstract remainder `rest`
standing for every other field of the document, which the splicer never
touches. -/
structure GenesisSpec (α : Type) where
  name : String
  id : String
  protocolId : String
  top : String → Option String
  rest : α

/-- JavaScript object assignment `top[k] = v`. -/
def update (t : String → Option String) (k v : String) : String → Option String :=
  fun q => if q = k then some v else t q

/-- JavaScript `delete top[k]`. -/
def deleteKey (t : String → Option String) (k : String) : String → Option String :=
  fun q => if q = k then none else t q

/-- Storage transplant (lines 116-118): filter the snapshot down to the pairs
whose key starts with some retained prefix, then insert each into the map in
order. -/
def transplant (storage : List (String × String)) (prefs : List String)
    (t : String → Option String) : String → Option String :=
  (storage.filter (fun i => prefs.any (fun p => startsWith i.1 p))).foldl
    (fun acc kv => update acc kv.1 kv.2) t

/-- Storage key deleted at line 121 (`System.LastRuntimeUpgrade`). -/
def lastRuntimeUpgradeKey : String :=
  "0x26aa394eea5630e07c48ae0c9558cef7f9cce9c888469bb1a0dceaa129672ef8"

/-- The well-known `:code` storage key set at line 124. -/
def codeKey : String := "0x3a636f6465"

/-- Storage key overridden at line 127 (`Staking.ForceEra`). -/
def forceEraKey : String :=
  "0x5f3e4907f716ac89b6347d15ececedcaf7dad0317324aecae8744b87fc95f2f3"

/-- Storage key overridden at line 130 (parachain `HostConfiguration`). -/
def hostConfigKey : String :=
  "0x45323df7cc47150b3930e2666b0aa313c522231880238a0c56021b8744a00743"

/-- Value written at line 130. -/
def hostConfigValue : String :=
  "0x0000a000005000000a00000000c8000000c800000a0000000a0000000100000001000000"

/-- Storage key overridden at line 133 (council membership). -/
def councilKey : String :=
  "0x11f3ba2e1cdd6d62f2ff9b5589e7ff81ba7fb8745735dc3be2a2c61a72c39e78"

/-- Storage key overridden at line 134 (technical committee membership). -/
def techCommitteeKey : String :=
  "0x8985776095addd4789fccbce8ca77b23ba7fb8745735dc3be2a2c61a72c39e78"

/-- Value written at lines 133-134 (Alice only). -/
def aliceOnlyValue : String := "0x04f24ff3a9cf04c71dbc94d0b566f7a27b94566cac"

/-- Storage key overridden at line 137 (author eligibility ratio). -/
def eligibilityKey : String :=
  "0x76310ee24dbd609d21d08ad7292757d0e48df801946c7a0cc54f1a4e51592741"

/-- The fixed override table applied after the transplant: the
`LastRuntimeUpgrade` delete (line 121) plus the five hard-coded assignments
of lines 127-137; `none` means delete. -/
def overrideTable : List (String × Option String) :=
  [(lastRuntimeUpgradeKey, none),
   (forceEraKey, some "0x02"),
   (hostConfigKey, some hostConfigValue),
   (councilKey, some aliceOnlyValue),
   (techCommitteeKey, some aliceOnlyValue),
   (eligibilityKey, some "0x64")]

/-- The seven storage keys written or deleted unconditionally by the splice
(the override-table keys plus `:code`). -/
def fixedKeys : List String :=
  [lastRuntimeUpgradeKey, codeKey, forceEraKey, hostConfigKey, councilKey,
   techCommitteeKey, eligibilityKey]

/-- The spec splicer, lines 110-139 of `main`: identity rewrite, storage
transplant, `LastRuntimeUpgrade` delete, runtime code injection, and the
five fixed overrides, in program order. `runtimeHex` is the content of the
hex file produced by the external `hexdump` collaborator (line 58), consumed
as `'0x' + contents.trim()` at line 124. -/
def splice {α : Type} (originalSpec forkedSpec : GenesisSpec α)
    (storage : List (String × String)) (prefs : List String)
    (runtimeHex : String) : GenesisSpec α :=
  { forkedSpec with
    name := originalSpec.name ++ "-fork",
    id := originalSpec.id ++ "-fork",
    protocolId := originalSpec.protocolId,
    top :=
      let t1 := transplant storage prefs forkedSpec.top
      let t2 := deleteKey t1 lastRuntimeUpgradeKey
      let t3 := update t2 codeKey ("0x" ++ runtimeHex.trim)
      let t4 := update t3 forceEraKey "0x02"
      let t5 := update t4 hostConfigKey hostConfigValue
      let t6 := update t5 councilKey aliceOnlyValue
      let t7 := update t6 techCommitteeKey aliceOnlyValue
      update t7 eligibilityKey "0x64" }

/-! ## Pointwise behavior of the transplant and the fixed writes -/

theorem updates_apply_of_ne : ∀ (l : List (String × String)) (t : String → Option String)
    (k : String), (∀ i ∈ l, i.1 ≠ k) →
    (l.foldl (fun acc kv => update acc kv.1 kv.2) t) k = t k
  | [], _, _, _ => rfl
  | (a, b) :: rest, t, k, h => by
    rw [List.foldl_cons,
      updates_apply_of_ne rest _ k (fun i hi => h i (List.mem_cons_of_mem _ hi))]
    have hne : k ≠ a := fun he => h (a, b) (List.mem_cons_self _ _) he.symm
    simp [update, hne]

theorem updates_apply_of_mem_nodup : ∀ (l : List (String × String))
    (t : String → Option String) (k v : String),
    (l.map Prod.fst).Nodup → (k, v) ∈ l →
    (l.foldl (fun acc kv => update acc kv.1 kv.2) t) k = some v
  | [], _, _, _, _, hm => absurd hm (List.not_mem_nil _)
  | (a, b) :: rest, t, k, v, hnd, hm => by
    rw [List.foldl_cons]
    have hsplit : (∀ x : String, (a, x) ∉ rest) ∧ (List.map Prod.fst rest).Nodup := by
      simpa using hnd
    rcases List.mem_cons.mp hm with heq | hmem
    · cases heq
      have hne : ∀ i ∈ rest, i.1 ≠ a := by
        intro i hi he
        apply hsplit.1 i.2
        rw [← he]
        rwa [Prod.mk.eta]
      rw [updates_apply_of_ne rest _ a hne]
      simp [update]
    · exact updates_apply_of_mem_nodup rest _ k v hsplit.2 hmem

/-- A key matching no retained prefix is untouched by the transplant. -/
theorem transplant_apply_of_not_match (storage : List (String × String))
    (prefs : List String) (t : String → Option String) (k : String)
    (h : (prefs.any fun p => startsWith k p) = false) :
    transplant storage prefs t k = t k := by
  apply updates_apply_of_ne
  intro i hi he
  have hp : (prefs.any fun p => startsWith i.1 p) = true := (List.mem_filter.mp hi).2
  rw [he, h] at hp
  exact Bool.false_ne_true hp

/-- A snapshot pair whose key matches a retained prefix is inserted by the
transplant (snapshot keys assumed pairwise distinct). -/
theorem transplant_apply_of_mem (storage : List (String × String))
    (prefs : List String) (t : String → Option String) (k v : String)
    (hmem : (k, v) ∈ storage) (hnd : (storage.map Prod.fst).Nodup)
    (hmatch : (prefs.any fun p => startsWith k p) = true) :
    transplant storage prefs t k = some v := by
  apply updates_apply_of_mem_nodup
  · exact List.Nodup.sublist (List.Sublist.map Prod.fst (List.filter_sublist storage)) hnd
  · exact List.mem_filter.mpr ⟨hmem, hmatch⟩

/-- The post-transplant writes of lines 121-137, as one function of the map
they act on. -/
def applyFixed (runtimeHex : String) (t : String → Option String) :
    String → Option String :=
  update
    (update
      (update
        (update
          (update
            (update (deleteKey t lastRuntimeUpgradeKey) codeKey ("0x" ++ runtimeHex.trim))
            forceEraKey "0x02")
          hostConfigKey hostConfigValue)
        councilKey aliceOnlyValue)
      techCommitteeKey aliceOnlyValue)
    eligibilityKey "0x64"

theorem splice_top {α : Type} (o f : GenesisSpec α) (storage : List (String × String))
    (prefs : List String) (ch : String) :
    (splice o f storage prefs ch).top = applyFixed ch (transplant storage prefs f.top) := rfl

/-- The fixed writes look only at the seven fixed keys: at any other point
they agree with any pointwise-agreeing base maps. -/
theorem applyFixed_congr {t t' : String → Option String} (ch : String) (k : String)
    (h : t k = t' k) : applyFixed ch t k = applyFixed ch t' k := by
  simp only [applyFixed, update, deleteKey]
  rw [h]

/-! ## Claim C2 -/

/-- C2. Overrides are applied after the storage transplant: for every key
that is both transplanted from the snapshot (it is a snapshot key matching a
retained prefix) and named in the override table, the final
`forkedSpec.genesis.raw.top` holds the override's fixed value — or, for the
delete entry (`System.LastRuntimeUpgrade`), omits the key — never the
snapshot's value. -/
theorem c2_override_precedence {α : Type} (o f : GenesisSpec α)
    (storage : List (String × String)) (prefs : List String) (ch : String)
    (k : String) (ov : Option String) (v : String)
    (hk : (k, ov) ∈ overrideTable) (hv : (k, v) ∈ storage)
    (hm : (prefs.any fun p => startsWith k p) = true) :
    (splice o f storage prefs ch).top k = ov := by
  simp only [overrideTable, List.mem_cons, List.not_mem_nil, or_false,
    Prod.mk.injEq] at hk
  rcases hk with ⟨h1, h2⟩ | ⟨h1, h2⟩ | ⟨h1, h2⟩ | ⟨h1, h2⟩ | ⟨h1, h2⟩ | ⟨h1, h2⟩ <;>
    subst h1 <;> subst h2 <;> rfl

/-- Witness for C2: a snapshot pair at the `Staking.ForceEra` key, matching a
retained prefix, ends up overridden to `0x02`. -/
theorem c2_override_precedence_witness :
    ((forceEraKey, some "0x02") ∈ overrideTable
      ∧ (forceEraKey, "0xdead") ∈ [(forceEraKey, "0xdead")]
      ∧ (([forceEraKey].any fun p => startsWith forceEraKey p) = true))
    ∧ (splice (⟨"a", "b", "c", fun _ => none, ()⟩ : GenesisSpec Unit)
        ⟨"d", "e", "f", fun _ => none, ()⟩ [(forceEraKey, "0xdead")] [forceEraKey]
        "00").top forceEraKey = some "0x02" :=
  ⟨⟨by decide, by decide, by decide⟩,
   c2_override_precedence _ _ _ _ _ _ _ "0xdead" (by decide) (by decide) (by decide)⟩

/-! ## Claim C3 -/

/-- C3. A snapshot pair whose key does not start with any retained prefix is
discarded: at that key the output document is exactly what it would be had
the snapshot been empty, so the pair's value is never transplanted into
`genesis.raw.top` even though the pair is present in the snapshot. -/
theorem c3_prefix_filtering {α : Type} (o f : GenesisSpec α)
    (storage : List (String × String)) (prefs : List String) (ch : String)
    (k v : String) (h0 : (k, v) ∈ storage)
    (h : (prefs.any fun p => startsWith k p) = false) :
    (splice o f storage prefs ch).top k = (splice o f [] prefs ch).top k := by
  rw [splice_top, splice_top]
  exact applyFixed_congr ch k (transplant_apply_of_not_match storage prefs f.top k h)

/-- Witness for C3: a pair under an unmatched key is not copied. -/
theorem c3_prefix_filtering_witness :
    (("0xbb22", "0x02") ∈ [("0xbb22", "0x02")]
      ∧ (["0xaa"].any fun p => startsWith "0xbb22" p) = false)
    ∧ (splice (⟨"a", "b", "c", fun _ => none, ()⟩ : GenesisSpec Unit)
        ⟨"d", "e", "f", fun _ => none, ()⟩ [("0xbb22", "0x02")] ["0xaa"]
        "00").top "0xbb22"
      = (splice (⟨"a", "b", "c", fun _ => none, ()⟩ : GenesisSpec Unit)
          ⟨"d", "e", "f", fun _ => none, ()⟩ [] ["0xaa"] "00").top "0xbb22" :=
  ⟨⟨by decide, by decide⟩,
   c3_prefix_filtering _ _ _ _ _ _ "0x02" (by decide) (by decide)⟩

/-! ## Claim C6 -/

/-- C6. After splicing, the well-known code storage key `0x3a636f6465` in
`forkedSpec.genesis.raw.top` equals `0x` followed by the whitespace-trimmed
hex encoding of the runtime blob, regardless of the snapshot, the retained
prefixes, and the template or original spec (in particular regardless of any
value either held for that key). -/
theorem c6_runtime_injection {α : Type} (o f : GenesisSpec α)
    (storage : List (String × String)) (prefs : List String) (ch : String) :
    (splice o f storage prefs ch).top codeKey = some ("0x" ++ ch.trim) := rfl

/-! ## Claim C7 -/

/-- Concrete original spec exercising the documented `kusama` example. -/
def kusamaSpec : GenesisSpec Unit := ⟨"kusama", "ks", "ksm", fun _ => none, ()⟩

/-- Concrete template spec for the `kusama` example. -/
def devTemplateSpec : GenesisSpec Unit := ⟨"Development", "dev", "dev", fun _ => none, ()⟩

/-- C7. The splice sets `forkedSpec.name` to `originalSpec.name + "-fork"`,
`forkedSpec.id` to `originalSpec.id + "-fork"`, and `forkedSpec.protocolId`
to `originalSpec.protocolId`, unconditionally overwriting the template; in
particular an original spec with name `kusama` and id `ks` yields
`kusama-fork` and `ks-fork`. -/
theorem c7_identity_rewrite {α : Type} (o f : GenesisSpec α)
    (storage : List (String × String)) (prefs : List String) (ch : String) :
    ((splice o f storage prefs ch).name = o.name ++ "-fork"
      ∧ (splice o f storage prefs ch).id = o.id ++ "-fork"
      ∧ (splice o f storage prefs ch).protocolId = o.protocolId)
    ∧ ((splice kusamaSpec devTemplateSpec [] [] "").name = "kusama-fork"
      ∧ (splice kusamaSpec devTemplateSpec [] [] "").id = "ks-fork") :=
  ⟨⟨rfl, rfl, rfl⟩, rfl, rfl⟩

/-! ## Claim C8 -/

/-- C8. Deleting the `System.LastRuntimeUpgrade` override target from a
document that does not contain it is a silent no-op: `delete` on the storage
map (a total function — no error can be raised) returns the map unchanged
when the key is absent. -/
theorem c8_delete_missing_noop (t : String → Option String)
    (h : t lastRuntimeUpgradeKey = none) :
    deleteKey t lastRuntimeUpgradeKey = t := by
  funext q
  by_cases hq : q = lastRuntimeUpgradeKey
  · subst hq
    simp [deleteKey, h]
  · simp [deleteKey, hq]

/-- Witness for C8 on a template with an empty storage map. -/
theorem c8_delete_missing_noop_witness :
    ((fun _ => none : String → Option String) lastRuntimeUpgradeKey = none)
    ∧ deleteKey (fun _ => none) lastRuntimeUpgradeKey = (fun _ => none) :=
  ⟨rfl, c8_delete_missing_noop (fun _ => none) rfl⟩

/-! ## Claim C9 -/

/-- C9. The splice mutates only `name`, `id`, `protocolId` and entries of
`genesis.raw.top`: the abstract remainder of the template document is
returned unchanged, and an entry of `genesis.raw.top` whose key is neither a
transplanted snapshot key nor one of the seven fixed keys (the deleted
`LastRuntimeUpgrade` key, the `:code` key and the five fixed override keys —
together, the six-entry override table plus `:code`) keeps its template
value. In this pure embedding the inputs `originalSpec` and `storage` are
values, so their non-mutation is inherent: `splice` returns a new document
and leaves every input untouched. -/
theorem c9_frame {α : Type} (o f : GenesisSpec α) (storage : List (String × String))
    (prefs : List String) (ch : String) (k : String)
    (hk : k ∉ fixedKeys)
    (hs : ∀ i ∈ storage, i.1 = k → (prefs.any fun p => startsWith k p) = false) :
    (splice o f storage prefs ch).rest = f.rest
    ∧ (splice o f storage prefs ch).top k = f.top k := by
  refine ⟨rfl, ?_⟩
  rw [splice_top]
  simp only [fixedKeys, List.mem_cons, List.not_mem_nil, or_false, not_or] at hk
  obtain ⟨h1, h2, h3, h4, h5, h6, h7⟩ := hk
  simp only [applyFixed, update, deleteKey, if_neg h1, if_neg h2, if_neg h3, if_neg h4,
    if_neg h5, if_neg h6, if_neg h7]
  apply updates_apply_of_ne
  intro i hi he
  have hp : (prefs.any fun p => startsWith i.1 p) = true := (List.mem_filter.mp hi).2
  have hf := hs i (List.mem_of_mem_filter hi) he
  rw [he, hf] at hp
  exact Bool.false_ne_true hp

/-- Witness for C9: a key outside the fixed set, with a snapshot that does
not transplant it, keeps the template value. -/
theorem c9_frame_witness :
    ("0xFF" ∉ fixedKeys
      ∧ ∀ i ∈ [("0xaa11", "0x01")], (Prod.fst i) = "0xFF"
          → ((["0xaa"] : List String).any fun p => startsWith "0xFF" p) = false)
    ∧ (splice (⟨"a", "b", "c", fun _ => none, ()⟩ : GenesisSpec Unit)
        ⟨"d", "e", "f", fun q => if q = "0xFF" then some "0x99" else none, ()⟩
        [("0xaa11", "0x01")] ["0xaa"] "00").rest = ()
    ∧ (splice (⟨"a", "b", "c", fun _ => none, ()⟩ : GenesisSpec Unit)
        ⟨"d", "e", "f", fun q => if q = "0xFF" then some "0x99" else none, ()⟩
        [("0xaa11", "0x01")] ["0xaa"] "00").top "0xFF"
      = (fun q => if q = "0xFF" then some "0x99" else none) "0xFF" :=
  ⟨⟨by decide, by decide⟩,
   (c9_frame (⟨"a", "b", "c", fun _ => none, ()⟩ : GenesisSpec Unit)
      ⟨"d", "e", "f", fun q => if q = "0xFF" then some "0x99" else none, ()⟩
      [("0xaa11", "0x01")] ["0xaa"] "00" "0xFF" (by decide) (by decide)).1,
   (c9_frame (⟨"a", "b", "c", fun _ => none, ()⟩ : GenesisSpec Unit)
      ⟨"d", "e", "f", fun q => if q = "0xFF" then some "0x99" else none, ()⟩
      [("0xaa11", "0x01")] ["0xaa"] "00" "0xFF" (by decide) (by decide)).2⟩

/-! ## Claim C10 -/

/-- C10. Although `System` is in the module skip list, the hard-coded pinned
prefix `0x26aa…1da9` (the `System.Account` map) is in the retained prefix
set for every metadata input, so every snapshot pair whose key starts with
that prefix is transplanted from the live chain into the forked spec: its
snapshot value is the final value in `genesis.raw.top` (snapshot keys
assumed pairwise distinct, as they are for a storage dump). -/
theorem c10_pinned_system_account {α : Type} (modules : List ModuleMeta)
    (o f : GenesisSpec α) (storage : List (String × String)) (ch : String)
    (k v : String) (h1 : (k, v) ∈ storage)
    (h2 : startsWith k pinnedSystemAccountKey = true)
    (h3 : (storage.map Prod.fst).Nodup) :
    pinnedSystemAccountKey ∈ buildPrefixes modules
    ∧ (splice o f storage (buildPrefixes modules) ch).top k = some v := by
  have hpin : pinnedSystemAccountKey ∈ buildPrefixes modules := by
    rw [buildPrefixes_eq]
    exact List.mem_cons_self _ _
  refine ⟨hpin, ?_⟩
  rw [splice_top]
  have hne : ∀ K ∈ fixedKeys, k ≠ K := by
    intro K hK he
    subst he
    fin_cases hK <;> exact absurd h2 (by decide)
  have e1 : k ≠ lastRuntimeUpgradeKey := hne _ (by simp [fixedKeys])
  have e2 : k ≠ codeKey := hne _ (by simp [fixedKeys])
  have e3 : k ≠ forceEraKey := hne _ (by simp [fixedKeys])
  have e4 : k ≠ hostConfigKey := hne _ (by simp [fixedKeys])
  have e5 : k ≠ councilKey := hne _ (by simp [fixedKeys])
  have e6 : k ≠ techCommitteeKey := hne _ (by simp [fixedKeys])
  have e7 : k ≠ eligibilityKey := hne _ (by simp [fixedKeys])
  simp only [applyFixed, update, deleteKey, if_neg e1, if_neg e2, if_neg e3, if_neg e4,
    if_neg e5, if_neg e6, if_neg e7]
  apply transplant_apply_of_mem storage _ f.top k v h1 h3
  rw [List.any_eq_true]
  exact ⟨pinnedSystemAccountKey, hpin, h2⟩

/-- Witness for C10: a pair at the pinned `System.Account` key itself is
transplanted. -/
theorem c10_pinned_system_account_witness :
    ((pinnedSystemAccountKey, "0x2a") ∈ [(pinnedSystemAccountKey, "0x2a")]
      ∧ startsWith pinnedSystemAccountKey pinnedSystemAccountKey = true
      ∧ ([(pinnedSystemAccountKey, "0x2a")].map Prod.fst).Nodup)
    ∧ pinnedSystemAccountKey ∈ buildPrefixes []
    ∧ (splice (⟨"a", "b", "c", fun _ => none, ()⟩ : GenesisSpec Unit)
        ⟨"d", "e", "f", fun _ => none, ()⟩ [(pinnedSystemAccountKey, "0x2a")]
        (buildPrefixes []) "00").top pinnedSystemAccountKey = some "0x2a" :=
  ⟨⟨by decide, by decide, by decide⟩,
   (c10_pinned_system_account [] (⟨"a", "b", "c", fun _ => none, ()⟩ : GenesisSpec Unit)
      ⟨"d", "e", "f", fun _ => none, ()⟩ [(pinnedSystemAccountKey, "0x2a")] "00"
      pinnedSystemAccountKey "0x2a" (by decide) (by decide) (by decide)).1,
   (c10_pinned_system_account [] (⟨"a", "b", "c", fun _ => none, ()⟩ : GenesisSpec Unit)
      ⟨"d", "e", "f", fun _ => none, ()⟩ [(pinnedSystemAccountKey, "0x2a")] "00"
      pinnedSystemAccountKey "0x2a" (by decide) (by decide) (by decide)).2⟩

/-! ## Claim C5 -/

/-- C5 counterexample. The script keys both the skip decision and the hash on
`module.storage.prefix`, not on the module's human-readable name. First
part: a module named `System` (which is in the skip list) whose storage
prefix is `Staking` does get a hash added for it, so "a skip-listed module's
hash is never added" fails as stated. Second part, for the reading in which
"its 128-bit keyed hash" means the hash of the module's name: a module named
`Balances` (not skip-listed) with storage prefix `Staking` does not get
`xxhashAsHex "Balances"` added, refuting the "if" direction under that
reading. -/
theorem c5_counterexample :
    (ModuleMeta.name ⟨"System", some ⟨"Staking"⟩⟩ ∈ skippedModulesPrefix
      ∧ buildPrefixes [⟨"System", some ⟨"Staking"⟩⟩]
          = [pinnedSystemAccountKey, xxhashAsHex "Staking"])
    ∧ (ModuleMeta.name ⟨"Balances", some ⟨"Staking"⟩⟩ ∉ skippedModulesPrefix
      ∧ xxhashAsHex "Balances" ∉ buildPrefixes [⟨"Balances", some ⟨"Staking"⟩⟩]) :=
  ⟨⟨by decide, rfl⟩, by decide, by decide⟩

/-- C5 (amended). For every module in the chain metadata that declares a
storage section, the 128-bit keyed hash of its storage prefix is added to
the prefix set if and only if that storage prefix (the field the script
actually consults, which usually but not always equals the module name) is
not in the skip list; the pinned prefix is included verbatim regardless of
metadata. In particular, for metadata modules System, Balances and Staking
whose storage prefixes equal their names, the set is exactly the pinned
prefix plus the hashes of Balances and Staking, and the hash of System is
not in it. -/
theorem c5_prefix_registry :
    (∀ modules : List ModuleMeta,
      buildPrefixes modules = pinnedSystemAccountKey :: modules.filterMap hashedIfKept)
    ∧ buildPrefixes
        [⟨"System", some ⟨"System"⟩⟩, ⟨"Balances", some ⟨"Balances"⟩⟩,
         ⟨"Staking", some ⟨"Staking"⟩⟩]
        = [pinnedSystemAccountKey, xxhashAsHex "Balances", xxhashAsHex "Staking"]
    ∧ xxhashAsHex "System"
        ∉ buildPrefixes
            [⟨"System", some ⟨"System"⟩⟩, ⟨"Balances", some ⟨"Balances"⟩⟩,
             ⟨"Staking", some ⟨"Staking"⟩⟩] :=
  ⟨buildPrefixes_eq, rfl, by decide⟩

/-! ## Claim C4: the chunk addresses partition the keyspace -/

/-- Hex rendering of a byte sequence, two lowercase digits per byte. -/
def renderBytes : List Nat → String
  | [] => ""
  | b :: bs => byteToHex b ++ renderBytes bs

/-- The hex string form of a storage key given by its byte sequence, as
returned by the chain RPC (`0x` plus two lowercase hex digits per byte). -/
def keyHex (bs : List Nat) : String := "0x" ++ renderBytes bs

theorem renderBytes_append : ∀ (xs ys : List Nat),
    renderBytes (xs ++ ys) = renderBytes xs ++ renderBytes ys
  | [], ys => (str_empty_append _).symm
  | x :: xs, ys => by
    show byteToHex x ++ renderBytes (xs ++ ys)
        = byteToHex x ++ renderBytes xs ++ renderBytes ys
    rw [renderBytes_append xs ys, str_append_assoc]

/-- Membership in the visited chunk addresses: exactly the strings obtained
by appending `l` rendered bytes to the root. -/
theorem mem_childPrefixes : ∀ (l : Nat) (pre p : String),
    p ∈ childPrefixes pre l ↔
      ∃ bs : List Nat, bs.length = l ∧ (∀ b ∈ bs, b < 256) ∧ p = pre ++ renderBytes bs
  | 0, pre, p => by
    constructor
    · intro h
      rw [childPrefixes, List.mem_singleton] at h
      exact ⟨[], rfl, by simp, by rw [h, renderBytes, str_append_empty]⟩
    · rintro ⟨bs, hlen, -, hp⟩
      rw [List.length_eq_zero] at hlen
      subst hlen
      rw [childPrefixes, List.mem_singleton, hp, renderBytes, str_append_empty]
  | l + 1, pre, p => by
    constructor
    · intro h
      rw [childPrefixes, List.mem_flatMap] at h
      obtain ⟨i, hi, hp⟩ := h
      rw [mem_childPrefixes l] at hp
      obtain ⟨bs, hlen, hb, hpe⟩ := hp
      refine ⟨i :: bs, by simp [hlen], ?_, ?_⟩
      · intro b hb'
        rcases List.mem_cons.mp hb' with rfl | h'
        · exact List.mem_range.mp hi
        · exact hb b h'
      · rw [hpe, renderBytes, ← str_append_assoc]
    · rintro ⟨bs, hlen, hb, hpe⟩
      cases bs with
      | nil => simp at hlen
      | cons i bs' =>
        rw [childPrefixes, List.mem_flatMap]
        refine ⟨i, List.mem_range.mpr (hb i (List.mem_cons_self _ _)), ?_⟩
        rw [mem_childPrefixes l]
        exact ⟨bs', by simpa using hlen, fun b h' => hb b (List.mem_cons_of_mem _ h'),
          by rw [hpe, renderBytes, ← str_append_assoc]⟩

/-- Splitting an equal-length prefix off a prefix relation. -/
theorem append_prefix_split {α : Type} {l1 l2 r1 r2 : List α}
    (hlen : l1.length = l2.length) (h : (l1 ++ r1) <+: (l2 ++ r2)) :
    l1 = l2 ∧ r1 <+: r2 := by
  obtain ⟨t, ht⟩ := h
  have h1 : l1 = l2 := by
    calc l1 = ((l1 ++ r1) ++ t).take l1.length := by
          rw [List.append_assoc, List.take_left]
      _ = (l2 ++ r2).take l1.length := by rw [ht]
      _ = l2 := List.take_left' hlen.symm
  subst h1
  refine ⟨rfl, t, ?_⟩
  rw [List.append_assoc] at ht
  exact (List.append_right_inj l1).mp ht

/-- A hex-rendered byte sequence that is a character-prefix of another is a
byte-prefix: the first bytes agree. -/
theorem renderBytes_prefix : ∀ (cs ds : List Nat), (∀ b ∈ cs, b < 256) →
    (∀ b ∈ ds, b < 256) → cs.length ≤ ds.length →
    (renderBytes cs).data <+: (renderBytes ds).data →
    cs = ds.take cs.length
  | [], _, _, _, _, _ => by simp
  | c :: cs', ds, hc, hd, hlen, hp => by
    cases ds with
    | nil => simp at hlen
    | cons d ds' =>
      have h1 : (renderBytes (c :: cs')).data
          = (byteToHex c).data ++ (renderBytes cs').data := by
        rw [renderBytes, String.data_append]
      have h2 : (renderBytes (d :: ds')).data
          = (byteToHex d).data ++ (renderBytes ds').data := by
        rw [renderBytes, String.data_append]
      rw [h1, h2] at hp
      have hc0 : c < 256 := hc c (List.mem_cons_self _ _)
      have hd0 : d < 256 := hd d (List.mem_cons_self _ _)
      have hsplit := append_prefix_split
        (by rw [byteToHex_len c hc0, byteToHex_len d hd0]) hp
      have hcd : c = d := byteToHex_inj hc0 hd0 (str_ext hsplit.1)
      have hrest := renderBytes_prefix cs' ds'
        (fun b hb => hc b (List.mem_cons_of_mem _ hb))
        (fun b hb => hd b (List.mem_cons_of_mem _ hb))
        (by simpa using hlen) hsplit.2
      rw [List.length_cons, List.take_succ_cons, hcd, ← hrest]

/-- Sibling chunk subtrees are disjoint. -/
theorem childPrefixes_disjoint (l : Nat) (pre : String) {i j : Nat}
    (hi : i < 256) (hj : j < 256) (hij : i ≠ j) :
    List.Disjoint (childPrefixes (pre ++ byteToHex i) l)
      (childPrefixes (pre ++ byteToHex j) l) := by
  intro p hpi hpj
  rw [mem_childPrefixes] at hpi hpj
  obtain ⟨b1, -, -, he1⟩ := hpi
  obtain ⟨b2, -, -, he2⟩ := hpj
  apply hij
  have hdata := congrArg String.data (he1.symm.trans he2)
  simp only [String.data_append, List.append_assoc] at hdata
  have h2 := (List.append_right_inj pre.data).mp hdata
  have hti : ((byteToHex i).data ++ (renderBytes b1).data).take 2 = (byteToHex i).data :=
    List.take_left' (byteToHex_len i hi)
  have htj : ((byteToHex j).data ++ (renderBytes b2).data).take 2 = (byteToHex j).data :=
    List.take_left' (byteToHex_len j hj)
  apply byteToHex_inj hi hj
  apply str_ext
  rw [← hti, h2, htj]

theorem nodup_childPrefixes : ∀ (l : Nat) (pre : String), (childPrefixes pre l).Nodup
  | 0, pre => by simp [childPrefixes]
  | l + 1, pre => by
    rw [childPrefixes, List.nodup_flatMap]
    refine ⟨fun i _ => nodup_childPrefixes l _, ?_⟩
    exact (List.pairwise_lt_range 256).imp_of_mem
      (fun {a b} ha hb hab =>
        childPrefixes_disjoint l pre (List.mem_range.mp ha) (List.mem_range.mp hb)
          (Nat.ne_of_lt hab))

theorem sum_map_const {α : Type} (l : List α) (c : Nat) :
    (l.map (fun _ => c)).sum = l.length * c := by
  induction l with
  | nil => simp
  | cons a l ih => simp [ih, Nat.succ_mul, Nat.add_comm]

theorem length_childPrefixes : ∀ (l : Nat) (pre : String),
    (childPrefixes pre l).length = 256 ^ l
  | 0, _ => rfl
  | l + 1, pre => by
    rw [childPrefixes, List.length_flatMap]
    have h : (List.range 256).map (fun i => (childPrefixes (pre ++ byteToHex i) l).length)
        = (List.range 256).map (fun _ => 256 ^ l) :=
      List.map_congr_left (fun i _ => length_childPrefixes l _)
    simp only [Function.comp_def]
    rw [h, sum_map_const, List.length_range, Nat.pow_succ, Nat.mul_comm]

set_option maxRecDepth 16384 in
set_option maxHeartbeats 1000000 in
/-- C4 counterexample. At depth 1 the chunk addresses are `0x00`..`0xff`, and
the (degenerate but possible) empty storage key `0x` extends none of them:
the claim "every possible storage key in the address space extends exactly
one of them" fails for keys shorter than `levels` bytes. -/
theorem c4_counterexample :
    ¬ ∃! p, p ∈ childPrefixes "0x" 1 ∧ startsWith (keyHex []) p = true := by
  rintro ⟨p, ⟨hp, hs⟩, -⟩
  have hall : ∀ q ∈ childPrefixes "0x" 1, startsWith (keyHex []) q = false := by decide
  rw [hall p hp] at hs
  exact Bool.false_ne_true hs

/-- C4 (amended). For every `levels ≥ 0` the walk visits exactly
`256 ^ levels` distinct leaf chunk addresses (each child formed by appending
one two-hex-digit byte `00`..`ff` to its parent), matching `totalChunks`,
and every storage key comprising at least `levels` bytes extends exactly one
of them — no overlap, no gap on keys of sufficient length (keys shorter than
`levels` bytes, possible only in the abstract address space, extend none). -/
theorem c4_chunk_partition (l : Nat) (bs : List Nat)
    (hb : ∀ b ∈ bs, b < 256) (hlen : l ≤ bs.length) :
    (childPrefixes "0x" l).Nodup
    ∧ (childPrefixes "0x" l).length = totalChunks l
    ∧ totalChunks l = 256 ^ l
    ∧ ∃! p, p ∈ childPrefixes "0x" l ∧ startsWith (keyHex bs) p = true := by
  refine ⟨nodup_childPrefixes l _, (length_childPrefixes l _).trans rfl, rfl, ?_⟩
  refine ⟨"0x" ++ renderBytes (bs.take l), ⟨?_, ?_⟩, ?_⟩
  · rw [mem_childPrefixes]
    exact ⟨bs.take l, by rw [List.length_take]; exact Nat.min_eq_left hlen,
      fun b hb' => hb b (List.take_subset l bs hb'), rfl⟩
  · rw [startsWith_iff]
    have hsplitk : renderBytes bs = renderBytes (bs.take l) ++ renderBytes (bs.drop l) := by
      rw [← renderBytes_append, List.take_append_drop]
    rw [keyHex, hsplitk]
    simp only [String.data_append, List.append_assoc]
    rw [List.prefix_append_right_inj]
    exact List.prefix_append _ _
  · rintro q ⟨hq, hsw⟩
    rw [mem_childPrefixes] at hq
    obtain ⟨cs, hclen, hcb, rfl⟩ := hq
    rw [startsWith_iff, keyHex] at hsw
    simp only [String.data_append] at hsw
    have hcs := renderBytes_prefix cs bs hcb hb (hclen ▸ hlen)
      ((List.prefix_append_right_inj _).mp hsw)
    rw [hcs, hclen]

/-- Witness for C4 at depth 1 with the one-byte key `0x2a`. -/
theorem c4_chunk_partition_witness :
    ((∀ b ∈ [42], b < 256) ∧ 1 ≤ ([42] : List Nat).length)
    ∧ ((childPrefixes "0x" 1).Nodup
      ∧ (childPrefixes "0x" 1).length = totalChunks 1
      ∧ totalChunks 1 = 256 ^ 1
      ∧ ∃! p, p ∈ childPrefixes "0x" 1 ∧ startsWith (keyHex [42]) p = true) :=
  ⟨⟨by decide, by decide⟩, c4_chunk_partition 1 [42] (by decide) (by decide)⟩

end ForkOff
